import Mathlib

/-!
Verification development for the Adiabatic Bond-Charge Model implementation
in src/abcm.py (module abcm of the Latdyn repository).

The Python source is embedded shallowly:

* numpy vectors of shape (3,) become functions Fin 3 → ℝ (or ℚ where the
  routine is purely order/field arithmetic and we want executable
  definitions), numpy 3x3 arrays become Matrix (Fin 3) (Fin 3) ℝ;
* numpy.linalg.norm v is Real.sqrt of the sum of squares;
* the complex dynamical matrix of size 3N x 3N is indexed by Fin N × Fin 3,
  the pair (i, a) standing for row 3*i + a of the numpy array;
* fallible code (Python exceptions) is modelled with Option/Except.

Faithfulness notes on the source, referenced from the definitions below:

* line 61 of src/abcm.py reads "nnlab[n2] = 'BC'" inside an expression; in
  Python that is a syntax error, and the only loadable reading (and the
  evident intent, matching the neighbouring comparisons) is the equality
  test "nnlab[n2] == 'BC'".  The embedding uses the equality test.
* inside ConstructFC the local d1 is assigned only when the
  bond-stretching block runs (line 57); when the centre atom is a bond
  charge and neighbour n1 is labelled BC the block is skipped and d1
  keeps the value of the previous iteration (stale), or is unbound if no
  iteration has assigned it yet, in which case Python raises
  UnboundLocalError at line 64.  The embedding threads this staleness
  explicitly (cfcD1) and returns none exactly when Python would crash.
* set_bulk_fc (lines 245-250), set_bulk_fc2 (lines 260-271) and
  set_sl_fc (line 341) all call ConstructFC with only 4 positional
  arguments while ConstructFC (line 23) has 6 required parameters, so in
  Python each of those calls raises
  TypeError: ConstructFC() takes exactly 6 arguments (4 given).
  The embedding models those call sites as that error.
* the constant M_THZ is imported from the constants module, which is not
  part of src/; the spec describes it only as a fixed physical
  unit-conversion constant, so the embedding takes it as an explicit real
  parameter (called mthz) of DynBuild.
-/

/-- Three-component real vector, modelling a numpy array of shape (3,). -/
abbrev V3 : Type := Fin 3 → ℝ

/-- Real 3x3 matrix, modelling a numpy array of shape (3,3). -/
abbrev Mat3 : Type := Matrix (Fin 3) (Fin 3) ℝ

/-- Euclidean inner product of two 3-vectors (np.dot on shape-(3,) arrays). -/
def dot3 (u v : V3) : ℝ := ∑ a, u a * v a

/-- numpy.linalg.norm of a 3-vector: square root of the sum of squares. -/
noncomputable def pynorm (v : V3) : ℝ := Real.sqrt (dot3 v v)

/-- Whether iteration n1 of the ConstructFC loop executes the
bond-stretching block (src/abcm.py line 52): it runs unless the centre is
a bond charge and neighbour n1 is itself labelled BC. -/
def cfcAssigned {N : ℕ} (nnlab : Fin N → String) (isBC : Bool) (n1 : Fin N) : Bool :=
  !isBC || (nnlab n1 != "BC")

/-- Value held by the Python local d1 when iteration n1 of ConstructFC
reaches the bending loop: the bond length computed by the most recent
stretching block at or before n1 (src/abcm.py line 57).  none models the
case in which no stretching block has run yet, where Python raises
UnboundLocalError at the first use of d1 (line 64). -/
noncomputable def cfcD1 {N : ℕ} (nn : Fin N → V3) (atom : V3) (nnlab : Fin N → String)
    (isBC : Bool) (n1 : Fin N) : Option ℝ :=
  (((List.finRange N).filter fun m => decide (m ≤ n1) && cfcAssigned nnlab isBC m).getLast?).map
    fun m => pynorm (atom - nn m)

/-- Equidistance test tf0 of ConstructFC (src/abcm.py lines 63-64): the
one-sided comparison d1 - d2 < 1e-4 with d2 the distance between the two
neighbours.  Only evaluated when the centre is a bond charge. -/
noncomputable def cfcTF0 {N : ℕ} (nn : Fin N → V3) (atom : V3) (nnlab : Fin N → String)
    (isBC : Bool) (n1 n2 : Fin N) : Prop :=
  (cfcD1 nn atom nnlab isBC n1).getD 0 - pynorm (nn n1 - nn n2) < 1 / 10000

/-- Gate tf1 or tf2 or tf3 of ConstructFC (src/abcm.py lines 61-67)
deciding whether the bending contribution of the pair (n1, n2) is added.
Line 61 of the source has the = / == syntax slip described in the header;
the equality test is used here. -/
noncomputable def cfcGate {N : ℕ} (nn : Fin N → V3) (atom : V3) (nnlab : Fin N → String)
    (isBC : Bool) (n1 n2 : Fin N) : Prop :=
  (isBC = false ∧ nnlab n1 = "BC" ∧ nnlab n2 = "BC")
    ∨ (isBC = true ∧ nnlab n1 = "BC" ∧ nnlab n2 ≠ "BC" ∧ cfcTF0 nn atom nnlab isBC n1 n2)
    ∨ (isBC = true ∧ nnlab n1 ≠ "BC" ∧ nnlab n2 = "BC" ∧ cfcTF0 nn atom nnlab isBC n1 n2)

/-- Unnormalised bending matrix tmp of ConstructFC (src/abcm.py lines
68-73): tmp[a,b] = (-atom[b]+nn[n2,b]) * (2*atom[a]-nn[n1,a]-nn[n2,a]);
the diagonal branch of the source is the a = b instance of the same
formula. -/
def cfcBendM {N : ℕ} (nn : Fin N → V3) (atom : V3) (n1 n2 : Fin N) : Mat3 :=
  Matrix.of fun a b => (-atom b + nn n2 b) * (2 * atom a - nn n1 a - nn n2 a)

/-- Divisor d2 used at line 76 of src/abcm.py: when the centre is a bond
charge it is the distance between the two neighbours (line 63); otherwise
the only reachable gate is tf1 and d2 was just reassigned to the distance
from the centre to neighbour n2 (line 75). -/
noncomputable def cfcD2 {N : ℕ} (nn : Fin N → V3) (atom : V3) (isBC : Bool)
    (n1 n2 : Fin N) : ℝ :=
  if isBC then pynorm (nn n1 - nn n2) else pynorm (atom - nn n2)

/-- Row n1 of the Alpha array of ConstructFC after the loop (src/abcm.py
lines 53-58, before the final *= 8): the negated outer product of the bond
vector with itself, scaled by alpha[n1]/d1/d1, and zero when the
stretching block is skipped. -/
noncomputable def cfcAlpha {N : ℕ} (alpha : Fin N → ℝ) (nn : Fin N → V3) (atom : V3)
    (nnlab : Fin N → String) (isBC : Bool) (n1 : Fin N) : Mat3 :=
  if cfcAssigned nnlab isBC n1 then
    (alpha n1 / pynorm (atom - nn n1) / pynorm (atom - nn n1)) •
      Matrix.of fun a b => -((atom a - nn n1 a) * (atom b - nn n1 b))
  else 0

open Classical in
/-- Row n1 of the Beta array of ConstructFC after the inner n2 loop
(src/abcm.py lines 59-76, before the final *= 2), accumulated in loop
order as in the source. -/
noncomputable def cfcBeta {N : ℕ} (beta : Fin N → Fin N → ℝ) (nn : Fin N → V3) (atom : V3)
    (nnlab : Fin N → String) (isBC : Bool) (n1 : Fin N) : Mat3 :=
  (List.finRange N).foldl
    (fun acc n2 =>
      if n1 ≠ n2 ∧ cfcGate nn atom nnlab isBC n1 n2 then
        acc + (beta n1 n2 / (cfcD1 nn atom nnlab isBC n1).getD 0 / cfcD2 nn atom isBC n1 n2) •
          cfcBendM nn atom n1 n2
      else acc)
    0

/-- ConstructFC of src/abcm.py (lines 23-81): force-constant tensors for
all nearest neighbours, 8 * stretching + 2 * bending.  Returns none
exactly when the Python function raises UnboundLocalError: the centre is
a bond charge, there are at least two neighbours (so the bending loop
runs), and d1 is used before any stretching block has assigned it. -/
noncomputable def ConstructFC {N : ℕ} (alpha : Fin N → ℝ) (beta : Fin N → Fin N → ℝ)
    (nn : Fin N → V3) (atom : V3) (nnlab : Fin N → String) (isBC : Bool) :
    Option (Fin N → Mat3) :=
  if 1 < N ∧ isBC = true ∧ ∃ n1, (cfcD1 nn atom nnlab isBC n1).isNone = true then none
  else
    some fun n1 =>
      (8 : ℝ) • cfcAlpha alpha nn atom nnlab isBC n1
        + (2 : ℝ) • cfcBeta beta nn atom nnlab isBC n1

/-- Stretching term exactly as the specification words it (spec section
4.2, used for claim C2): the outer product of the bond vector
atom - nn[n] with itself, scaled by -alpha_n / d_n^2 with d_n the bond
length. -/
noncomputable def specStretch {N : ℕ} (alpha : Fin N → ℝ) (nn : Fin N → V3) (atom : V3)
    (n : Fin N) : Mat3 :=
  (-(alpha n) / pynorm (atom - nn n) ^ 2) •
    Matrix.of fun a b => (atom a - nn n a) * (atom b - nn n b)

/-- One entry of the neighbour data consumed by DynBuild: the neighbour
position nn[i][j], the force-constant tensor fc[i][j] and the
owning-basis label label[i][j].  The three parallel Python lists are
zipped, matching the loop of src/abcm.py lines 111-118 which indexes all
three by the same j. -/
abbrev BondR (N : ℕ) : Type := V3 × Mat3 × Fin N

/-- Complex dynamical matrix of size 3N x 3N; the index pair (i, a)
stands for row 3*i + a of the numpy array dyn[q]. -/
abbrev DMat (N : ℕ) : Type := Matrix (Fin N × Fin 3) (Fin N × Fin 3) ℂ

/-- Contribution of the bond bd of atom i to the dynamical matrix, as
added by one iteration of the inner loop of DynBuild (src/abcm.py lines
111-118): -fc[i][j]/mass[i] on the diagonal block (i,i) and
fc[i][j]/sqrt(mass[i]*mass[ka]) * exp(-i k.x) on the block (i,ka) with
x = basis[i] - nn[i][j]; when ka = i both land additively on the same
block, exactly as the two in-place numpy updates do. -/
noncomputable def dynG {N : ℕ} (mass : Fin N → ℝ) (bas : Fin N → V3) (kc : V3)
    (i : Fin N) (bd : BondR N) : DMat N :=
  Matrix.of fun p q =>
    (if p.1 = i ∧ q.1 = i then -((bd.2.1 p.2 q.2 : ℂ) / (mass i : ℂ)) else 0)
      + (if p.1 = i ∧ q.1 = bd.2.2 then
          (bd.2.1 p.2 q.2 : ℂ) / (Real.sqrt (mass i * mass bd.2.2) : ℂ)
            * Complex.exp (-Complex.I * (dot3 kc (bas i - bd.1) : ℂ))
        else 0)

/-- One inner-loop step of DynBuild: the state matrix plus the bond
contribution. -/
noncomputable def dynUpd {N : ℕ} (mass : Fin N → ℝ) (bas : Fin N → V3) (kc : V3)
    (i : Fin N) (M : DMat N) (bd : BondR N) : DMat N :=
  M + dynG mass bas kc i bd

/-- Dynamical matrix at one Cartesian k-vector kc (already multiplied by
2*pi): the double accumulation loop of DynBuild (src/abcm.py lines
109-118) starting from the zero matrix, scaled by the unit-conversion
constant (line 120). -/
noncomputable def dynK {N : ℕ} (mthz : ℝ) (bas : Fin N → V3) (mass : Fin N → ℝ)
    (bonds : Fin N → List (BondR N)) (kc : V3) : DMat N :=
  (mthz : ℂ) •
    (List.finRange N).foldl (fun M i => (bonds i).foldl (dynUpd mass bas kc i) M) 0

/-- DynBuild of src/abcm.py (lines 83-120).  kpts are converted to
Cartesian coordinates times 2*pi first (line 108): through bvec when they
are crystal coordinates, directly otherwise.  The parameter mthz stands
for the imported constant M_THZ (see the header note). -/
noncomputable def DynBuild {N : ℕ} (bas : Fin N → V3) (mass : Fin N → ℝ) (bvec : Mat3)
    (bonds : Fin N → List (BondR N)) (kpts : List V3) (crys : Bool) (mthz : ℝ) :
    List (DMat N) :=
  kpts.map fun k =>
    dynK mthz bas mass bonds
      (if crys then (2 * Real.pi) • bvec.mulVec k else (2 * Real.pi) • k)

/-- Number of zero eigenvalues of a (Hermitian) dynamical matrix,
formalised as the dimension of its kernel; for a Hermitian matrix the
two agree since it is diagonalisable. -/
noncomputable def zeroEigCount {N : ℕ} (M : DMat N) : ℕ :=
  Module.finrank ℂ (LinearMap.ker M.mulVecLin)

/-- Mass-weighted rigid-translation vector along Cartesian direction a:
component sqrt(mass[j]) on slot (j, a), zero elsewhere. -/
noncomputable def transVec {N : ℕ} (mass : Fin N → ℝ) (a : Fin 3) : Fin N × Fin 3 → ℂ :=
  fun p => if p.2 = a then (Real.sqrt (mass p.1) : ℂ) else 0

/-- Three-component rational vector: the routines below (neighbour
search, interface averaging, k-point conversion, dictionary lookups) use
only field arithmetic and order comparisons, so they are embedded over ℚ
to stay executable; the square root of numpy.linalg.norm is passed in as
a function argument sq. -/
abbrev V3Q : Type := Fin 3 → ℚ

/-- Rational 3x3 matrix. -/
abbrev Mat3Q : Type := Matrix (Fin 3) (Fin 3) ℚ

/-- Euclidean inner product over ℚ, written out component-wise so that
it evaluates by kernel reduction. -/
def dot3Q (u v : V3Q) : ℚ := u 0 * v 0 + u 1 * v 1 + u 2 * v 2

/-- Absolute value of a rational (abs of the Python source), written as
a comparison so that it evaluates by kernel reduction. -/
def qabs (x : ℚ) : ℚ := if x < 0 then -x else x

/-- Matrix-vector product np.dot(M, v) for a 3x3 matrix, written out
component-wise so that it evaluates by kernel reduction. -/
def mulVec3 (M : Mat3Q) (v : V3Q) : V3Q :=
  fun a => M a 0 * v 0 + M a 1 * v 1 + M a 2 * v 2

/-- numpy.linalg.norm with an explicit square-root function. -/
def pynormQ (sq : ℚ → ℚ) (v : V3Q) : ℚ := sq (dot3Q v v)

/-- Rational stand-in for the floating-point square root on the values
0, 1, 2, 3 that occur in the concrete inputs below; its values agree
with the real square root to 1e-7 (lemmas ratSqrt_two and ratSqrt_three
below), far finer than the 1e-4 and 1e-3 tolerances it feeds. -/
def ratSqrt (q : ℚ) : ℚ :=
  if q = 0 then 0
  else if q = 1 then 1
  else if q = 2 then 14142135 / 10000000
  else if q = 3 then 17320508 / 10000000
  else 0

/-- Flattened integer grid np.mgrid[-X:X+1, -Y:Y+1, -Z:Z+1] of set_nn
(src/abcm.py lines 204-206), reshaped in C order. -/
def mgridList (X Y Z : ℕ) : List (ℤ × ℤ × ℤ) :=
  (List.range (2 * X + 1)).flatMap fun a =>
    (List.range (2 * Y + 1)).flatMap fun b =>
      (List.range (2 * Z + 1)).map fun c =>
        ((a : ℤ) - (X : ℤ), (b : ℤ) - (Y : ℤ), (c : ℤ) - (Z : ℤ))

/-- Lattice translations rgrid = np.dot(lvec, (x,y,z)).T of set_nn
(line 207). -/
def rgridList (lvec : Mat3Q) (X Y Z : ℕ) : List V3Q :=
  (mgridList X Y Z).map fun t =>
    mulVec3 lvec fun a => if a = 0 then (t.1 : ℚ) else if a = 1 then (t.2.1 : ℚ) else (t.2.2 : ℚ)

/-- Stable insertion into an index list kept ascending by (value, index).
np.argsort uses an unstable quicksort whose order among equal values is
unspecified; the facts proved below are independent of that order. -/
def argIns (ds : ℕ → ℚ) (m : ℕ) : List ℕ → List ℕ
  | [] => [m]
  | k :: ks =>
    if ds m < ds k ∨ (ds m = ds k ∧ m ≤ k) then m :: k :: ks else k :: argIns ds m ks

/-- Index permutation sorting a list of values ascending (np.argsort). -/
def argsort (ds : List ℚ) : List ℕ :=
  (List.range ds.length).foldr (fun m acc => argIns (fun n => ds.getD n 0) m acc) []

/-- Per-atom output of set_nn: owning-basis labels, neighbour positions
and neighbour distances. -/
structure NNOut where
  label : List ℕ
  nn : List V3Q
  nndist : List ℚ
deriving DecidableEq, Inhabited

/-- Body of the per-atom loop of set_nn (src/abcm.py lines 213-229):
distances to all candidate atoms, argsort sliced to ranks 1..nmax-1,
then either the first-shell filter (all candidates within 1e-4 of the
smallest non-zero distance) or the cutoff filter dist <= dist2. -/
def set_nnAtom (sq : ℚ → ℚ) (allA : List V3Q) (basi : V3Q) (nmax : ℕ)
    (dist2 : Option ℚ) (nrg : ℕ) : NNOut :=
  let ds := allA.map fun p => pynormQ sq (basi - p)
  let nnInd := ((argsort ds).drop 1).take (nmax - 1)
  let first :=
    match dist2 with
    | none => nnInd.filter fun m => qabs (ds.getD m 0 - ds.getD nnInd.headI 0) < 1 / 10000
    | some d2 => nnInd.filter fun m => ds.getD m 0 ≤ d2
  { label := first.map fun m => m / nrg
    nn := first.map fun m => allA.getD m 0
    nndist := first.map fun m => ds.getD m 0 }

/-- set_nn of src/abcm.py (lines 185-235): candidate atoms are every
basis atom translated by every grid vector (basis-major order, lines
208-211), then the per-atom neighbour shells. -/
def set_nn (sq : ℚ → ℚ) (lvec : Mat3Q) (bas : List V3Q) (X Y Z nmax : ℕ)
    (dist2 : Option ℚ) : List NNOut :=
  let rg := rgridList lvec X Y Z
  let allA := bas.flatMap fun item => rg.map fun r => item + r
  bas.map fun bi => set_nnAtom sq allA bi nmax dist2 rg.length

/-- Neighbour geometry consumed by __fix_interface: basis positions,
neighbour positions and owning-basis labels, with bn i neighbours at
atom i. -/
structure NNGeom (N : ℕ) (bn : Fin N → ℕ) where
  bas : Fin N → V3Q
  pos : (i : Fin N) → Fin (bn i) → V3Q
  lbl : (i : Fin N) → Fin (bn i) → Fin N

/-- Index of one stored bond: an atom together with one of its
neighbour slots. -/
abbrev BIdx (N : ℕ) (bn : Fin N → ℕ) : Type := (i : Fin N) × Fin (bn i)

/-- Bond vector bas[i] - nn[i][j] (src/abcm.py lines 349 and 352). -/
def bondVec {N : ℕ} {bn : Fin N → ℕ} (G : NNGeom N bn) (p : BIdx N bn) : V3Q :=
  G.bas p.1 - G.pos p.1 p.2

/-- np.cross of two 3-vectors. -/
def cross3 (u v : V3Q) : V3Q := fun a =>
  if a = 0 then u 1 * v 2 - u 2 * v 1
  else if a = 1 then u 2 * v 0 - u 0 * v 2
  else u 0 * v 1 - u 1 * v 0

/-- Parallel-bond test of __fix_interface (src/abcm.py line 353):
norm(np.cross(bond0, bond1)) < 1e-3. -/
abbrev sameBond {N : ℕ} {bn : Fin N → ℕ} (sq : ℚ → ℚ) (G : NNGeom N bn)
    (p q : BIdx N bn) : Prop :=
  pynormQ sq (cross3 (bondVec G p) (bondVec G q)) < 1 / 1000

/-- The two in-place assignments of one matching step of __fix_interface
(src/abcm.py lines 354-357): tmp = (fc[i][j] + fc[off][k].T)/2, then
fc[i][j] = tmp and fc[off][k] = tmp.T (the second write wins when the
two cells coincide). -/
def fixUpd {N : ℕ} {bn : Fin N → ℕ} [DecidableEq (BIdx N bn)]
    (F : (r : BIdx N bn) → Mat3Q) (p q : BIdx N bn) : (r : BIdx N bn) → Mat3Q :=
  fun r =>
    if r = q then ((1 / 2 : ℚ) • (F p + (F q).transpose)).transpose
    else if r = p then (1 / 2 : ℚ) • (F p + (F q).transpose)
    else F r

/-- __fix_interface of src/abcm.py (lines 345-357): the triple loop over
atoms i, their bonds j, and the neighbours k of the offsite atom, in
source order, threading the mutated tensor table through every step. -/
def fixInterface {N : ℕ} {bn : Fin N → ℕ} (sq : ℚ → ℚ) (G : NNGeom N bn)
    (F0 : (r : BIdx N bn) → Mat3Q) : (r : BIdx N bn) → Mat3Q :=
  ((List.finRange N).flatMap fun i =>
      (List.finRange (bn i)).map fun j => (⟨i, j⟩ : BIdx N bn)).foldl
    (fun F p =>
      (List.finRange (bn (G.lbl p.1 p.2))).foldl
        (fun F k =>
          if sameBond sq G p ⟨G.lbl p.1 p.2, k⟩ then fixUpd F p ⟨G.lbl p.1 p.2, k⟩
          else F)
        F)
    F0

/-- k-point store of the ABCM object: the kpts array and the flag saying
whether they are in crystal coordinates. -/
structure KState where
  kpts : List V3Q
  iskcrys : Bool
deriving DecidableEq

/-- k_conv of src/abcm.py (lines 380-399).  For a recognised target the
stored k-points are unconditionally multiplied by the conversion matrix
(lvec for crys, bvec for cart): the inner "if self.iskcrys: pass" does
nothing, so no branch skips the conversion.  For an unrecognised target
the source prints a message and then crashes with NameError at line 395
because convec was never bound; that is modelled as an error value. -/
def k_conv (lvec bvec : Mat3Q) (st : KState) (towhat : Option String) :
    Except String KState :=
  if st.kpts = [] then Except.error "You have not set kpoints yet!"
  else if towhat = some "crys" ∨ towhat = some "CRYS" then
    Except.ok { kpts := st.kpts.map fun k => mulVec3 lvec k, iskcrys := true }
  else if towhat = some "cart" ∨ towhat = some "CART" then
    Except.ok { kpts := st.kpts.map fun k => mulVec3 bvec k, iskcrys := false }
  else Except.error "NameError: convec"

/-- Dictionary lookup over an association list (a_dict.has_key(k) /
a_dict[k] of the Python 2 source). -/
def dictFind (d : List (String × ℚ)) (k : String) : Option ℚ :=
  (d.find? fun kv => kv.1 == k).map Prod.snd

/-- Key pair for one bond of set_sl_fc (src/abcm.py lines 298-302):
onsite-offsite and the reverse, with the trailing 2 appended for
second-shell bonds. -/
def slKeys (onsite off : String) (second : Bool) : String × String :=
  (onsite ++ "-" ++ off ++ (if second then "2" else ""),
   off ++ "-" ++ onsite ++ (if second then "2" else ""))

/-- Dual-key trial of set_sl_fc (lines 303-308 and analogues): first
key, then the reversed key, else the error naming the first key. -/
def slCheck (d : List (String × ℚ)) (k1 k2 : String) : Except String ℚ :=
  match dictFind d k1 with
  | some v => Except.ok v
  | none =>
    match dictFind d k2 with
    | some v => Except.ok v
    | none => Except.error ("Missing interaction: " ++ k1)

/-- Lookups performed for neighbour j of one atom in set_sl_fc
(src/abcm.py lines 297-339): the alpha lookup for key1/key2, then for
every other neighbour k the beta lookup for key3/key4 followed by the
beta lookup for key1/key2; the second-shell suffix follows j in all of
them, as in the source. -/
def slAtomJ (aD bD : List (String × ℚ)) (onsite : String) (offs : List String)
    (n1i j : ℕ) : Except String Unit := do
  let ks := slKeys onsite (offs.getD j "") (decide (n1i ≤ j))
  let _ ← slCheck aD ks.1 ks.2
  (List.range offs.length).foldlM
    (fun _ k => do
      if k ≠ j then
        let ks3 := slKeys onsite (offs.getD k "") (decide (n1i ≤ j))
        let _ ← slCheck bD ks3.1 ks3.2
        let _ ← slCheck bD ks.1 ks.2
        pure ()
      else pure ())
    ()

/-- Per-atom body of set_sl_fc: all lookups of the atom in neighbour
order, then the ConstructFC call of line 341, which passes 4 of the 6
required positional arguments and therefore raises TypeError in Python
(see the header note); the call site is modelled as that error. -/
def set_sl_fcAtom (aD bD : List (String × ℚ)) (symbol : String)
    (offs : List String) (n1i : ℕ) : Except String Unit := do
  let _ ← (List.range offs.length).foldlM (fun _ j => slAtomJ aD bD symbol offs n1i j) ()
  Except.error "TypeError: ConstructFC() takes exactly 6 arguments (4 given)"

/-- set_sl_fc of src/abcm.py (lines 273-343) over all atoms, in order.
Because every atom iteration ends in the TypeError of line 341, the
function can only ever return an error: either a missing-interaction
error raised by a lookup of the first atom, or the TypeError. -/
def set_sl_fc {N : ℕ} (symbol : Fin N → String) (nnsymb : Fin N → List String)
    (n1 : Fin N → ℕ) (aD bD : List (String × ℚ)) : Except String Unit :=
  (List.finRange N).foldlM
    (fun _ i => set_sl_fcAtom aD bD (symbol i) (nnsymb i) (n1 i)) ()

/-- set_bulk_fc of src/abcm.py (lines 237-250): for every atom the source
calls ConstructFC([alpha]*N, bb, nn[i], bas[i]) with 4 positional
arguments although ConstructFC has 6 required parameters (line 23), so
in Python the call raises TypeError before any tensor is built; the
whole method is modelled as that error. -/
def set_bulk_fc {N : ℕ} (alpha beta : ℝ) : Except String (Fin N → List Mat3) :=
  Except.error "TypeError: ConstructFC() takes exactly 6 arguments (4 given)"

open Classical in
/-- Ordered insertion used to model np.sort on a list of reals. -/
noncomputable def insR (x : ℝ) : List ℝ → List ℝ
  | [] => [x]
  | y :: ys => if x ≤ y then x :: y :: ys else y :: insR x ys

/-- np.sort on a one-dimensional real array. -/
noncomputable def sortR (l : List ℝ) : List ℝ := l.foldr insR []

/-- Objective function __fit_no_ewald of src/abcm.py (lines 721-726),
closed over the model state: the parameter vector goes through the
absolute-value transform (line 722), then set_bulk_fc runs, whose
ConstructFC call raises TypeError (header note); the rest of the
pipeline (short-range dynamical matrix, external eigensolver, per-k-point
sort, summed squared deviation divided by the number of k-points) is
written out as in the source but is unreachable.  solver stands for the
external EigenSolver collaborator (commonfunc module, not under src/);
srcSorted is self.src_freq, already sorted by fit_freq (line 698). -/
noncomputable def fit_no_ewald {N : ℕ} (solver : List (DMat N) → List (List ℝ))
    (bas : Fin N → V3) (mass : Fin N → ℝ) (bvec : Mat3)
    (nn : Fin N → List V3) (label : Fin N → List (Fin N))
    (kpts : List V3) (crys : Bool) (mthz : ℝ)
    (srcSorted : List (List ℝ)) (ab0 : ℝ × ℝ) : Except String ℝ := do
  let a0 := |ab0.1|
  let b0 := |ab0.2|
  let fc ← set_bulk_fc (N := N) a0 b0
  let bonds : Fin N → List (BondR N) := fun i =>
    ((nn i).zip ((fc i).zip (label i))).map fun z => (z.1, z.2.1, z.2.2)
  let dyn := DynBuild bas mass bvec bonds kpts crys mthz
  let freq := (solver dyn).map sortR
  let tot :=
    ((freq.zip srcSorted).map fun fs =>
      (((fs.1.zip fs.2).map fun x => (x.1 - x.2) ^ 2).sum)).sum
  pure (tot / (freq.length : ℝ))

/-! Concrete inputs used by the counterexamples and witnesses below. -/

/-- Real unit vector along x. -/
noncomputable def e0R : V3 := fun a => if a = 0 then 1 else 0

/-- Real 3x3 matrix with a single 1 in entry (0,1); not symmetric. -/
noncomputable def eM01 : Mat3 := Matrix.of fun a b => if a = 0 ∧ b = 1 then 1 else 0

/-- Neighbour position -x for the C1 counterexample, giving the bond
vector x = bas - pos = +x. -/
noncomputable def cx1pos : V3 := fun a => if a = 0 then -1 else 0

/-- Single bond with the non-symmetric tensor eM01 on a one-atom basis. -/
noncomputable def cx1bonds : Fin 1 → List (BondR 1) := fun _ => [(cx1pos, eM01, 0)]

/-- k-point (1/2, 0, 0) in units of 2 pi / alat, giving phase exp(-i pi)
on the bond of cx1bonds. -/
noncomputable def cx1k : V3 := fun a => if a = 0 then 1 / 2 else 0

/-- Single self-bond of zero length and zero tensor: a bond structure
that is symmetric under reversal, for the C1 witness. -/
noncomputable def w1bonds : Fin 1 → List (BondR 1) := fun _ => [(0, 0, 0)]

/-- One neighbour at +x. -/
noncomputable def w2nn : Fin 1 → V3 := fun _ => fun a => if a = 0 then 1 else 0

/-- Unit stretching coefficient. -/
noncomputable def w2alpha : Fin 1 → ℝ := fun _ => 1

/-- A non-BC neighbour label. -/
def w2lab : Fin 1 → String := fun _ => "A"

/-- Two-atom basis at 0 and (1/2, 0, 0). -/
noncomputable def c4bas : Fin 2 → V3 :=
  fun i => if i = 0 then 0 else fun a => if a = 0 then 1 / 2 else 0

/-- The other atom of the two-atom basis. -/
def c4other : Fin 2 → Fin 2 := fun i => if i = 0 then 1 else 0

/-- Each atom of the C4 counterexample sees the other atom as its single
neighbour. -/
noncomputable def c4nnf : Fin 2 → Fin 1 → V3 := fun i _ => c4bas (c4other i)

/-- Bond list of the C4 counterexample: one bond per atom, carrying the
zero tensors produced by ConstructFC with uniform alpha = beta = 0. -/
noncomputable def c4bonds : Fin 2 → List (BondR 2) :=
  fun i => [(c4bas (c4other i), 0, c4other i)]

/-- Bond list for the C4 witness: a single bond with an arbitrary
non-zero tensor on a one-atom basis. -/
noncomputable def w4bonds : Fin 1 → List (BondR 1) :=
  fun _ => [(w2nn 0, Matrix.of fun _ _ => 1, 0)]

/-- Rational 3x3 matrix with a single 1 in entry (0,1); not symmetric. -/
def q6B : Mat3Q := Matrix.of fun a b => if a = 0 ∧ b = 1 then 1 else 0

/-- Two neighbour slots on a one-atom basis. -/
abbrev q6bn : Fin 1 → ℕ := fun _ => 2

/-- Geometry of the C6 counterexample: one atom at the origin with the
two collinear neighbours +x and -x, both owned by the atom itself. -/
def q6geom : NNGeom 1 q6bn where
  bas := fun _ => 0
  pos := fun _ j => fun a => if a = 0 then (if j = 0 then 1 else -1) else 0
  lbl := fun _ _ => 0

/-- Initial tensors of the C6 counterexample: zero on the +x bond and
the non-symmetric q6B on the -x bond. -/
def q6F0 : (r : BIdx 1 q6bn) → Mat3Q := fun r => if r.2 = 0 then 0 else q6B

/-- Single neighbour slot on a one-atom basis. -/
abbrev w6bn : Fin 1 → ℕ := fun _ => 1

/-- Geometry of the C6 witness: one atom, one self-owned bond. -/
def w6geom : NNGeom 1 w6bn where
  bas := fun _ => 0
  pos := fun _ _ => fun a => if a = 0 then 1 else 0
  lbl := fun _ _ => 0

/-- Initial tensor of the C6 witness: non-symmetric. -/
def w6F0 : (r : BIdx 1 w6bn) → Mat3Q := fun _ => q6B

/-- Symbols of the C7 failing input: atom 0 is A, atom 1 is B. -/
def sl7symbol : Fin 2 → String := fun i => if i = 0 then "A" else "B"

/-- Neighbour symbols of the C7 failing input: both atoms see one B
neighbour, so atom 1 needs the key B-B. -/
def sl7nnsymb : Fin 2 → List String := fun _ => ["B"]

/-- Force-constant dictionary containing only A-B: the key B-B required
by atom 1 is missing in both orderings. -/
def sl7dict : List (String × ℚ) := [("A-B", 1)]

/-- k-point (1,0,0) for the C10 instance. -/
def k10 : V3Q := fun a => if a = 0 then 1 else 0

/-- Lattice-vector matrix 2*I for the C10 instance. -/
def lvec10 : Mat3Q := Matrix.of fun a b => if a = b then 2 else 0

/-- Neighbour search of claim C9: simple cubic lattice (identity lattice
vectors), one atom at the origin, scope [1,1,1], nmax 20, no explicit
second-shell cutoff, with the rational square-root table. -/
def nn9 : List NNOut := set_nn ratSqrt 1 [0] 1 1 1 20 none

/-- Candidate atom list of the C9 neighbour search: the one basis atom
translated by every grid vector, exactly as lines 208-211 build it. -/
def allA9 : List V3Q := [(0 : V3Q)].flatMap fun item => (rgridList 1 1 1 1).map fun r => item + r

/-- The 27 candidate distances of the C9 search, in grid order: the
ratSqrt values of 3, 2 and 1 and the zero self-distance, written in
lowest terms. -/
def dsLit9 : List ℚ := [4330127/2500000, 2828427/2000000, 4330127/2500000,
  2828427/2000000, 1, 2828427/2000000, 4330127/2500000, 2828427/2000000,
  4330127/2500000, 2828427/2000000, 1, 2828427/2000000, 1, 0, 1,
  2828427/2000000, 1, 2828427/2000000, 4330127/2500000, 2828427/2000000,
  4330127/2500000, 2828427/2000000, 1, 2828427/2000000, 4330127/2500000,
  2828427/2000000, 4330127/2500000]

/-! General list-sum helper lemmas used to turn the accumulation loops
into closed-form sums. -/

theorem foldl_add_eq {α β : Type*} [AddCommMonoid β] (g : α → β) (l : List α) (x : β) :
    l.foldl (fun acc a => acc + g a) x = x + (l.map g).sum := by
  induction l generalizing x with
  | nil => simp
  | cons a t ih => simp [ih, add_assoc]

theorem list_sum_apply {ι κ₁ κ₂ α : Type*} [AddCommMonoid α] (l : List ι)
    (g : ι → Matrix κ₁ κ₂ α) (p : κ₁) (q : κ₂) :
    (l.map g).sum p q = (l.map fun x => g x p q).sum := by
  induction l with
  | nil => simp
  | cons a t ih => simp [Matrix.add_apply, ih]

theorem list_sum_neg {ι α : Type*} [AddCommGroup α] (l : List ι) (f : ι → α) :
    (l.map fun x => -f x).sum = -(l.map f).sum := by
  induction l with
  | nil => simp
  | cons a t ih => simp [ih]; abel

theorem list_sum_mul_right {ι α : Type*} [NonUnitalNonAssocSemiring α] (l : List ι)
    (f : ι → α) (c : α) :
    (l.map fun x => f x * c).sum = (l.map f).sum * c := by
  induction l with
  | nil => simp
  | cons a t ih => simp [ih, add_mul]

theorem list_sum_add {ι α : Type*} [AddCommMonoid α] (l : List ι) (f g : ι → α) :
    (l.map fun x => f x + g x).sum = (l.map f).sum + (l.map g).sum := by
  induction l with
  | nil => simp
  | cons a t ih => simp [ih]; abel

theorem list_sum_ite_filter {ι α : Type*} [AddCommMonoid α] (l : List ι) (P : ι → Bool)
    (g : ι → α) :
    (l.map fun x => if P x then g x else 0).sum = ((l.filter P).map g).sum := by
  induction l with
  | nil => simp
  | cons a t ih => by_cases h : P a <;> simp [List.filter_cons, h, ih]

theorem list_sum_partition {ι α : Type*} [AddCommMonoid α] {N : ℕ} (l : List ι)
    (lab : ι → Fin N) (g : ι → α) :
    (∑ j : Fin N, ((l.filter fun x => decide (j = lab x)).map g).sum) = (l.map g).sum := by
  induction l with
  | nil => simp
  | cons a t ih =>
    have h1 : ∀ j : Fin N, (((a :: t).filter fun x => decide (j = lab x)).map g).sum
        = (if j = lab a then g a else 0) + ((t.filter fun x => decide (j = lab x)).map g).sum := by
      intro j
      by_cases h : j = lab a <;> simp [List.filter_cons, h]
    simp only [h1, Finset.sum_add_distrib, ih, List.map_cons, List.sum_cons]
    congr 1
    simp [Finset.sum_ite_eq]

/-! Closed form of the dynamical-matrix accumulation loop. -/

theorem foldl_dynUpd {N : ℕ} (mass : Fin N → ℝ) (bas : Fin N → V3) (kc : V3) (i : Fin N)
    (l : List (BondR N)) (M : DMat N) :
    l.foldl (dynUpd mass bas kc i) M = M + (l.map (dynG mass bas kc i)).sum := by
  have h : dynUpd mass bas kc i = fun M bd => M + dynG mass bas kc i bd := rfl
  rw [h, foldl_add_eq]

theorem dynK_eq_sum {N : ℕ} (mthz : ℝ) (bas : Fin N → V3) (mass : Fin N → ℝ)
    (bonds : Fin N → List (BondR N)) (kc : V3) :
    dynK mthz bas mass bonds kc =
      (mthz : ℂ) •
        ((List.finRange N).map fun i => ((bonds i).map (dynG mass bas kc i)).sum).sum := by
  unfold dynK
  congr 1
  have h : (fun (M : DMat N) i => (bonds i).foldl (dynUpd mass bas kc i) M)
      = fun M i => M + ((bonds i).map (dynG mass bas kc i)).sum := by
    funext M i
    exact foldl_dynUpd mass bas kc i (bonds i) M
  rw [h, foldl_add_eq]
  simp

theorem dynK_apply {N : ℕ} (mthz : ℝ) (bas : Fin N → V3) (mass : Fin N → ℝ)
    (bonds : Fin N → List (BondR N)) (kc : V3) (p q : Fin N × Fin 3) :
    dynK mthz bas mass bonds kc p q =
      (mthz : ℂ) *
        ((if p.1 = q.1 then
            -((((bonds p.1).map fun bd => (bd.2.1 p.2 q.2 : ℂ)).sum) / (mass p.1 : ℂ))
          else 0)
          + (((bonds p.1).filter fun bd => decide (q.1 = bd.2.2)).map fun bd =>
              (bd.2.1 p.2 q.2 : ℂ) / (Real.sqrt (mass p.1 * mass bd.2.2) : ℂ)
                * Complex.exp (-Complex.I * (dot3 kc (bas p.1 - bd.1) : ℂ))).sum) := by
  rw [dynK_eq_sum, Matrix.smul_apply, list_sum_apply, smul_eq_mul]
  congr 1
  have hmap : (List.finRange N).map
        (fun i => ((bonds i).map (dynG mass bas kc i)).sum p q)
      = (List.finRange N).map
        (fun i => ((bonds i).map fun bd => dynG mass bas kc i bd p q).sum) := by
    apply List.map_congr_left
    intro i _
    exact list_sum_apply _ _ _ _
  rw [hmap, ← Fin.sum_univ_def]
  rw [Finset.sum_eq_single p.1]
  · have hG : ∀ bd : BondR N, dynG mass bas kc p.1 bd p q
        = (if q.1 = p.1 then -((bd.2.1 p.2 q.2 : ℂ) / (mass p.1 : ℂ)) else 0)
          + (if q.1 = bd.2.2 then
              (bd.2.1 p.2 q.2 : ℂ) / (Real.sqrt (mass p.1 * mass bd.2.2) : ℂ)
                * Complex.exp (-Complex.I * (dot3 kc (bas p.1 - bd.1) : ℂ))
            else 0) := by
      intro bd
      simp [dynG]
    simp only [hG]
    rw [list_sum_add]
    congr 1
    · by_cases hpq : p.1 = q.1
      · rw [if_pos hpq]
        have hmm : ((bonds p.1).map fun bd =>
            if q.1 = p.1 then -((bd.2.1 p.2 q.2 : ℂ) / (mass p.1 : ℂ)) else 0)
            = (bonds p.1).map fun bd => -((bd.2.1 p.2 q.2 : ℂ) * (mass p.1 : ℂ)⁻¹) := by
          apply List.map_congr_left
          intro bd _
          rw [if_pos hpq.symm, div_eq_mul_inv]
        rw [hmm, list_sum_neg, list_sum_mul_right, ← div_eq_mul_inv]
      · have hqp : ¬ q.1 = p.1 := fun h => hpq h.symm
        simp [hpq, hqp]
    · rw [← list_sum_ite_filter]
      congr 1
      apply List.map_congr_left
      intro bd _
      by_cases h : q.1 = bd.2.2 <;> simp [h]
  · intro i _ hne
    apply List.sum_eq_zero
    intro x hx
    rcases List.mem_map.mp hx with ⟨bd, _, rfl⟩
    have hpi : ¬ p.1 = i := fun h => hne h.symm
    simp [dynG, hpi]
  · intro h
    exact absurd (Finset.mem_univ p.1) h

theorem dot3_neg (u v : V3) : dot3 u (-v) = -dot3 u v := by
  simp [dot3, mul_neg, Finset.sum_neg_distrib]

/-- C5: for every atom i and every bond j with owning label ka and bond
vector x = basis[i] - nn[i][j], DynBuild subtracts fc[i][j]/mass[i] from
the diagonal 3x3 block (i,i) and adds
fc[i][j]/sqrt(mass[i]*mass[ka]) * exp(-i k.x) to block (i,ka),
accumulating over all bonds, then scales everything by the fixed
unit-conversion constant; the k-points are first converted to Cartesian
coordinates times 2 pi (through bvec when given in crystal
coordinates). -/
theorem C5_dynbuild_accumulation {N : ℕ} (bas : Fin N → V3) (mass : Fin N → ℝ)
    (bvec : Mat3) (bonds : Fin N → List (BondR N)) (kpts : List V3) (crys : Bool)
    (mthz : ℝ) :
    DynBuild bas mass bvec bonds kpts crys mthz
        = (kpts.map fun k => dynK mthz bas mass bonds
            (if crys then (2 * Real.pi) • bvec.mulVec k else (2 * Real.pi) • k))
      ∧ ∀ (kc : V3) (p q : Fin N × Fin 3),
          dynK mthz bas mass bonds kc p q =
            (mthz : ℂ) *
              ((if p.1 = q.1 then
                  -((((bonds p.1).map fun bd => (bd.2.1 p.2 q.2 : ℂ)).sum) / (mass p.1 : ℂ))
                else 0)
                + (((bonds p.1).filter fun bd => decide (q.1 = bd.2.2)).map fun bd =>
                    (bd.2.1 p.2 q.2 : ℂ) / (Real.sqrt (mass p.1 * mass bd.2.2) : ℂ)
                      * Complex.exp
                          (-Complex.I * (dot3 kc (bas p.1 - bd.1) : ℂ))).sum) :=
  ⟨rfl, fun kc p q => dynK_apply mthz bas mass bonds kc p q⟩

/-- C1 counterexample: DynBuild is not Hermitian for every force-constant
stack.  On a one-atom basis with the single bond of cx1bonds carrying the
non-symmetric tensor eM01 and the k-point (1/2,0,0) in units of
2 pi/alat, entry ((0,0),(0,1)) of the assembled matrix is -2 while entry
((0,1),(0,0)) is 0, so the matrix differs from its conjugate transpose
(the unit-conversion scale is taken as 1). -/
theorem C1_counterexample :
    ¬ ∀ M ∈ DynBuild (fun _ => 0) (fun _ => 1) 1 cx1bonds [cx1k] false 1,
        M.IsHermitian := by
  intro h
  have hH := h (dynK 1 (fun _ => 0) (fun _ => 1) cx1bonds ((2 * Real.pi) • cx1k))
    (by simp [DynBuild])
  have he := congrFun (congrFun hH ((0 : Fin 1), (0 : Fin 3))) ((0 : Fin 1), (1 : Fin 3))
  rw [Matrix.conjTranspose_apply] at he
  have hdot : dot3 ((2 * Real.pi) • cx1k) (-cx1pos) = Real.pi := by
    simp [dot3, cx1k, cx1pos, Fin.sum_univ_three]
    ring
  have hexp : Complex.exp (-(Complex.I * (Real.pi : ℂ))) = -1 := by
    rw [show -(Complex.I * (Real.pi : ℂ)) = -((Real.pi : ℂ) * Complex.I) by ring,
      Complex.exp_neg, Complex.exp_pi_mul_I]
    norm_num
  have hE1 : dynK 1 (fun _ => 0) (fun _ => 1) cx1bonds ((2 * Real.pi) • cx1k)
      ((0 : Fin 1), (0 : Fin 3)) ((0 : Fin 1), (1 : Fin 3)) = -2 := by
    rw [dynK_apply]
    simp [cx1bonds, eM01, hdot, hexp, Real.sqrt_one]
    norm_num
  have hE0 : dynK 1 (fun _ => 0) (fun _ => 1) cx1bonds ((2 * Real.pi) • cx1k)
      ((0 : Fin 1), (1 : Fin 3)) ((0 : Fin 1), (0 : Fin 3)) = 0 := by
    rw [dynK_apply]
    simp [cx1bonds, eM01]
  rw [hE0, hE1] at he
  simp at he

theorem star_ofRealC (r : ℝ) : star ((r : ℝ) : ℂ) = ((r : ℝ) : ℂ) :=
  Complex.conj_ofReal r

theorem star_list_sumC (l : List ℂ) : star l.sum = (l.map star).sum := by
  induction l with
  | nil => simp
  | cons a t ih => simp [ih]

theorem star_phase_term (T s d : ℝ) :
    star ((T : ℂ) / (s : ℂ) * Complex.exp (-Complex.I * (d : ℂ)))
      = (T : ℂ) / (s : ℂ) * Complex.exp (Complex.I * (d : ℂ)) := by
  rw [star_mul']
  congr 1
  · rw [show (T : ℂ) / (s : ℂ) = ((T / s : ℝ) : ℂ) by push_cast; ring]
    exact star_ofRealC _
  · have h1 : star (Complex.exp (-Complex.I * (d : ℂ)))
        = Complex.exp (star (-Complex.I * (d : ℂ))) :=
      (Complex.exp_conj _).symm
    rw [h1]
    congr 1
    simp [Complex.conj_I]

/-- C1 amended: the short-range dynamical matrix built by DynBuild is
Hermitian at every k-point provided the force-constant stack has the
bond symmetry the construction pipeline is meant to produce, namely
(i) for every ordered pair (i,j), the bonds stored at atom j and owned
by atom i match, as a multiset, the bonds stored at atom i and owned by
atom j with reversed bond vectors and transposed tensors, and (ii) the
summed tensor of each atom is symmetric.  For an arbitrary tensor stack
the claim is false (C1_hermitian_counterexample). -/
theorem C1_amended {N : ℕ} (bas : Fin N → V3) (mass : Fin N → ℝ) (bvec : Mat3)
    (bonds : Fin N → List (BondR N)) (kpts : List V3) (crys : Bool) (mthz : ℝ)
    (hsym : ∀ i, ((bonds i).map fun bd => bd.2.1).sum
      = Matrix.transpose ((List.map (fun bd : BondR N => bd.2.1) (bonds i)).sum))
    (hpair : ∀ i j : Fin N,
      ((((bonds j).filter fun bd => decide (i = bd.2.2)).map
          fun bd => (bas j - bd.1, bd.2.1)) : Multiset (V3 × Mat3))
        = ((((bonds i).filter fun bd => decide (j = bd.2.2)).map
            fun bd => (-(bas i - bd.1), bd.2.1.transpose)) : List (V3 × Mat3))) :
    ∀ M ∈ DynBuild bas mass bvec bonds kpts crys mthz, M.IsHermitian := by
  intro M hM
  rcases List.mem_map.mp hM with ⟨k, _, rfl⟩
  set kc := if crys then (2 * Real.pi) • bvec.mulVec k else (2 * Real.pi) • k with hkc
  show (dynK mthz bas mass bonds kc).IsHermitian
  unfold Matrix.IsHermitian
  ext p q
  rw [Matrix.conjTranspose_apply, dynK_apply, dynK_apply]
  have hofsum : ∀ (l : List (BondR N)) (f : BondR N → ℝ),
      ((l.map fun bd => ((f bd : ℝ) : ℂ)).sum) = (((l.map f).sum : ℝ) : ℂ) := by
    intro l f
    induction l with
    | nil => simp
    | cons a t ih => simp [ih]
  have hD : star (if q.1 = p.1 then
        -((((bonds q.1).map fun bd => (bd.2.1 q.2 p.2 : ℂ)).sum) / (mass q.1 : ℂ))
      else 0)
      = (if p.1 = q.1 then
        -((((bonds p.1).map fun bd => (bd.2.1 p.2 q.2 : ℂ)).sum) / (mass p.1 : ℂ))
      else 0) := by
    by_cases hc : p.1 = q.1
    · rw [if_pos hc.symm, if_pos hc]
      have hq : q.1 = p.1 := hc.symm
      rw [hq, hofsum, hofsum]
      have hent : ((bonds p.1).map fun bd => bd.2.1 q.2 p.2).sum
          = ((bonds p.1).map fun bd => bd.2.1 p.2 q.2).sum := by
        have h1 := congrFun (congrFun (hsym p.1) q.2) p.2
        rw [Matrix.transpose_apply] at h1
        rw [list_sum_apply, list_sum_apply] at h1
        exact h1
      rw [hent]
      rw [show -(((((bonds p.1).map fun bd => bd.2.1 p.2 q.2).sum : ℝ) : ℂ)
            / ((mass p.1 : ℝ) : ℂ))
          = (((-(((bonds p.1).map fun bd => bd.2.1 p.2 q.2).sum / mass p.1)) : ℝ) : ℂ) by
        push_cast
        ring]
      exact star_ofRealC _
    · rw [if_neg (fun h => hc h.symm), if_neg hc, star_zero]
  have hO : star ((((bonds q.1).filter fun bd => decide (p.1 = bd.2.2)).map fun bd =>
        (bd.2.1 q.2 p.2 : ℂ) / (Real.sqrt (mass q.1 * mass bd.2.2) : ℂ)
          * Complex.exp (-Complex.I * (dot3 kc (bas q.1 - bd.1) : ℂ))).sum)
      = (((bonds p.1).filter fun bd => decide (q.1 = bd.2.2)).map fun bd =>
        (bd.2.1 p.2 q.2 : ℂ) / (Real.sqrt (mass p.1 * mass bd.2.2) : ℂ)
          * Complex.exp (-Complex.I * (dot3 kc (bas p.1 - bd.1) : ℂ))).sum := by
    rw [star_list_sumC, List.map_map]
    have hstar1 : (((bonds q.1).filter fun bd => decide (p.1 = bd.2.2)).map
          ((star : ℂ → ℂ) ∘ fun bd =>
            (bd.2.1 q.2 p.2 : ℂ) / (Real.sqrt (mass q.1 * mass bd.2.2) : ℂ)
              * Complex.exp (-Complex.I * (dot3 kc (bas q.1 - bd.1) : ℂ)))).sum
        = ((((bonds q.1).filter fun bd => decide (p.1 = bd.2.2)).map
            fun bd => (bas q.1 - bd.1, bd.2.1)).map fun z =>
          (z.2 q.2 p.2 : ℂ) / (Real.sqrt (mass q.1 * mass p.1) : ℂ)
            * Complex.exp (Complex.I * (dot3 kc z.1 : ℂ))).sum := by
      rw [List.map_map]
      congr 1
      apply List.map_congr_left
      intro bd hbd
      have hlab : p.1 = bd.2.2 :=
        of_decide_eq_true (List.mem_filter.mp hbd).2
      simp only [Function.comp_apply]
      rw [← hlab]
      exact star_phase_term _ _ _
    rw [hstar1]
    have hR : (((bonds p.1).filter fun bd => decide (q.1 = bd.2.2)).map fun bd =>
          (bd.2.1 p.2 q.2 : ℂ) / (Real.sqrt (mass p.1 * mass bd.2.2) : ℂ)
            * Complex.exp (-Complex.I * (dot3 kc (bas p.1 - bd.1) : ℂ))).sum
        = ((((bonds p.1).filter fun bd => decide (q.1 = bd.2.2)).map
            fun bd => (-(bas p.1 - bd.1), bd.2.1.transpose)).map fun z =>
          (z.2 q.2 p.2 : ℂ) / (Real.sqrt (mass q.1 * mass p.1) : ℂ)
            * Complex.exp (Complex.I * (dot3 kc z.1 : ℂ))).sum := by
      rw [List.map_map]
      congr 1
      apply List.map_congr_left
      intro bd hbd
      have hlab : q.1 = bd.2.2 :=
        of_decide_eq_true (List.mem_filter.mp hbd).2
      simp only [Function.comp_apply, Matrix.transpose_apply, dot3_neg]
      rw [← hlab, mul_comm (mass p.1) (mass q.1)]
      congr 1
      push_cast
      ring
    rw [hR]
    have hms := congrArg (fun s : Multiset (V3 × Mat3) =>
      (s.map fun z => (z.2 q.2 p.2 : ℂ) / (Real.sqrt (mass q.1 * mass p.1) : ℂ)
          * Complex.exp (Complex.I * (dot3 kc z.1 : ℂ))).sum) (hpair p.1 q.1)
    simpa using hms
  rw [star_mul', star_add, hD, hO, star_ofRealC]

theorem dot3_zero_left (v : V3) : dot3 0 v = 0 := by
  simp [dot3]

open Classical in
theorem cfcBeta_zero {N : ℕ} (nn : Fin N → V3) (atom : V3) (nnlab : Fin N → String)
    (isBC : Bool) (n1 : Fin N) :
    cfcBeta (fun _ _ => 0) nn atom nnlab isBC n1 = 0 := by
  unfold cfcBeta
  have hgen : ∀ (l : List (Fin N)) (acc : Mat3),
      l.foldl
        (fun acc n2 =>
          if n1 ≠ n2 ∧ cfcGate nn atom nnlab isBC n1 n2 then
            acc + ((fun _ _ => (0:ℝ)) n1 n2 / (cfcD1 nn atom nnlab isBC n1).getD 0
                / cfcD2 nn atom isBC n1 n2) • cfcBendM nn atom n1 n2
          else acc)
        acc = acc := by
    intro l
    induction l with
    | nil => intro acc; rfl
    | cons x t ih =>
      intro acc
      rw [List.foldl_cons]
      have hstep : (if n1 ≠ x ∧ cfcGate nn atom nnlab isBC n1 x then
          acc + ((fun _ _ => (0:ℝ)) n1 x / (cfcD1 nn atom nnlab isBC n1).getD 0
              / cfcD2 nn atom isBC n1 x) • cfcBendM nn atom n1 x
        else acc) = acc := by
        split
        · simp
        · rfl
      rw [hstep]
      exact ih acc
  exact hgen _ _

theorem ConstructFC_zero {N : ℕ} (nn : Fin N → V3) (atom : V3) (nnlab : Fin N → String) :
    ConstructFC (fun _ => 0) (fun _ _ => 0) nn atom nnlab false = some fun _ => 0 := by
  unfold ConstructFC
  rw [if_neg (by simp)]
  congr 1
  funext n1
  have hA : cfcAlpha (fun _ => 0) nn atom nnlab false n1 = 0 := by
    unfold cfcAlpha
    split
    · simp
    · rfl
  rw [hA, cfcBeta_zero]
  simp

/-- C4 counterexample: with the uniform (bulk) force constants
alpha = beta = 0 on a two-atom basis, ConstructFC yields zero tensors for
both atoms, the dynamical matrix assembled at k = (0,0,0) is the zero
6x6 matrix, and its number of zero eigenvalues is 6, not 3 (all six
eigenvalues of the zero matrix are exactly 0, hence also zero within the
1e-6 tolerance of the claim). -/
theorem C4_counterexample :
    (∀ i : Fin 2, ConstructFC (fun _ => (0:ℝ)) (fun _ _ => 0) (c4nnf i) (c4bas i)
        (fun _ => "A") false = some fun _ => 0)
      ∧ (DynBuild c4bas (fun _ => 1) 1 c4bonds [0] true 1).getD 0 0 = 0
      ∧ zeroEigCount ((DynBuild c4bas (fun _ => 1) 1 c4bonds [0] true 1).getD 0 0) ≠ 3 := by
  have hz : (DynBuild c4bas (fun _ => 1) 1 c4bonds [0] true 1).getD 0 0 = 0 := by
    have h1 : (DynBuild c4bas (fun _ => 1) 1 c4bonds [0] true 1).getD 0 0
        = dynK 1 c4bas (fun _ => 1) c4bonds ((2 * Real.pi) • (1 : Mat3).mulVec 0) := by
      simp [DynBuild]
    rw [h1]
    ext p q
    rw [dynK_apply]
    have hsum0 : ∀ (l : List (BondR 2)) (g : BondR 2 → ℂ),
        (∀ bd ∈ l, bd.2.1 = 0) →
        (l.map fun bd => (bd.2.1 p.2 q.2 : ℂ) * g bd).sum = 0 := by
      intro l g hl
      apply List.sum_eq_zero
      intro x hx
      rcases List.mem_map.mp hx with ⟨bd, hbd, rfl⟩
      rw [hl bd hbd]
      simp
    have hmain : ∀ bd ∈ c4bonds p.1, bd.2.1 = (0 : Mat3) := by
      intro bd hbd
      simp only [c4bonds, List.mem_singleton] at hbd
      rw [hbd]
    have hdiag : ((c4bonds p.1).map fun bd => (bd.2.1 p.2 q.2 : ℂ)).sum = 0 := by
      apply List.sum_eq_zero
      intro x hx
      rcases List.mem_map.mp hx with ⟨bd, hbd, rfl⟩
      rw [hmain bd hbd]
      simp
    have hoff : (((c4bonds p.1).filter fun bd => decide (q.1 = bd.2.2)).map fun bd =>
        (bd.2.1 p.2 q.2 : ℂ) / (Real.sqrt ((fun _ => (1:ℝ)) p.1 * (fun _ => (1:ℝ)) bd.2.2) : ℂ)
          * Complex.exp (-Complex.I *
              (dot3 ((2 * Real.pi) • (1 : Mat3).mulVec 0) (c4bas p.1 - bd.1) : ℂ))).sum = 0 := by
      apply List.sum_eq_zero
      intro x hx
      rcases List.mem_map.mp hx with ⟨bd, hbd, rfl⟩
      have hb : bd ∈ c4bonds p.1 := List.mem_of_mem_filter hbd
      rw [hmain bd hb]
      simp
    rw [hdiag, hoff]
    simp
  refine ⟨fun i => ConstructFC_zero _ _ _, hz, ?_⟩
  rw [hz]
  have h6 : zeroEigCount (0 : DMat 2) = 6 := by
    unfold zeroEigCount
    rw [Matrix.mulVecLin_zero, LinearMap.ker_zero, finrank_top]
    simp [Module.finrank_pi]
  rw [h6]
  omega

/-- C4 amended: at k = (0,0,0) the three mass-weighted rigid-translation
vectors are null vectors of the short-range dynamical matrix assembled
by DynBuild, for every basis, every positive mass assignment and every
force-constant stack, so the matrix has at least 3 zero eigenvalues;
exactly 3 need not hold (C4_counterexample: the all-zero uniform force
constants give 3N of them). -/
theorem C4_amended {N : ℕ} (hN : 0 < N) (bas : Fin N → V3) (mass : Fin N → ℝ)
    (bvec : Mat3) (bonds : Fin N → List (BondR N)) (crys : Bool) (mthz : ℝ)
    (hm : ∀ i, 0 < mass i) :
    (∀ a : Fin 3, ((DynBuild bas mass bvec bonds [0] crys mthz).getD 0 0).mulVec
        (transVec mass a) = 0)
      ∧ 3 ≤ zeroEigCount ((DynBuild bas mass bvec bonds [0] crys mthz).getD 0 0) := by
  have hsq0 : ∀ i : Fin N, ((Real.sqrt (mass i) : ℝ) : ℂ) ≠ 0 := by
    intro i
    rw [Ne, Complex.ofReal_eq_zero]
    exact (Real.sqrt_pos.mpr (hm i)).ne'
  have hDB : (DynBuild bas mass bvec bonds [0] crys mthz).getD 0 0
      = dynK mthz bas mass bonds 0 := by
    cases crys <;> simp [DynBuild, Matrix.mulVec_zero]
  have hker : ∀ a : Fin 3,
      (dynK mthz bas mass bonds 0).mulVec (transVec mass a) = 0 := by
    intro a
    funext p
    have h0 : (dynK mthz bas mass bonds 0).mulVec (transVec mass a) p
        = ∑ q : Fin N × Fin 3, dynK mthz bas mass bonds 0 p q * transVec mass a q := rfl
    rw [h0, Fintype.sum_prod_type]
    have hcol : ∀ j : Fin N,
        (∑ b : Fin 3, dynK mthz bas mass bonds 0 p (j, b) * transVec mass a (j, b))
          = dynK mthz bas mass bonds 0 p (j, a) * (Real.sqrt (mass j) : ℂ) := by
      intro j
      have hb : ∀ b : Fin 3, dynK mthz bas mass bonds 0 p (j, b) * transVec mass a (j, b)
          = if b = a then dynK mthz bas mass bonds 0 p (j, b) * (Real.sqrt (mass j) : ℂ)
            else 0 := by
        intro b
        unfold transVec
        by_cases hba : b = a <;> simp [hba]
      simp only [hb]
      rw [Finset.sum_ite_eq' Finset.univ a]
      simp
    simp only [hcol]
    have hterm : ∀ j : Fin N,
        dynK mthz bas mass bonds 0 p (j, a) * (Real.sqrt (mass j) : ℂ)
          = (mthz : ℂ) *
            ((if p.1 = j then
                -((((bonds p.1).map fun bd => (bd.2.1 p.2 a : ℂ)).sum) / (mass p.1 : ℂ))
              else 0) * (Real.sqrt (mass j) : ℂ)
              + (((bonds p.1).filter fun bd => decide (j = bd.2.2)).map fun bd =>
                  (bd.2.1 p.2 a : ℂ) / (Real.sqrt (mass p.1 * mass bd.2.2) : ℂ)
                    * Complex.exp (-Complex.I * (dot3 0 (bas p.1 - bd.1) : ℂ))).sum
                * (Real.sqrt (mass j) : ℂ)) := by
      intro j
      rw [dynK_apply]
      ring
    simp only [hterm]
    rw [← Finset.mul_sum, Finset.sum_add_distrib]
    have hdiagsum : (∑ j : Fin N, (if p.1 = j then
          -((((bonds p.1).map fun bd => (bd.2.1 p.2 a : ℂ)).sum) / (mass p.1 : ℂ))
        else 0) * (Real.sqrt (mass j) : ℂ))
        = -(((bonds p.1).map fun bd => (bd.2.1 p.2 a : ℂ)).sum
            * ((Real.sqrt (mass p.1) : ℂ))⁻¹) := by
      have hj : ∀ j : Fin N, (if p.1 = j then
            -((((bonds p.1).map fun bd => (bd.2.1 p.2 a : ℂ)).sum) / (mass p.1 : ℂ))
          else 0) * (Real.sqrt (mass j) : ℂ)
          = if p.1 = j then
              -((((bonds p.1).map fun bd => (bd.2.1 p.2 a : ℂ)).sum) / (mass p.1 : ℂ))
                * (Real.sqrt (mass j) : ℂ)
            else 0 := by
        intro j
        by_cases hpj : p.1 = j <;> simp [hpj]
      simp only [hj]
      rw [Finset.sum_ite_eq Finset.univ p.1]
      simp only [Finset.mem_univ, if_pos]
      have hmp : ((mass p.1 : ℝ) : ℂ)
          = (Real.sqrt (mass p.1) : ℂ) * (Real.sqrt (mass p.1) : ℂ) := by
        rw [← Complex.ofReal_mul, Real.mul_self_sqrt (hm p.1).le]
      rw [hmp]
      field_simp
      rw [← div_div, neg_div, mul_div_cancel_right₀ _ (hsq0 p.1)]
    have hoffsum : (∑ j : Fin N,
          (((bonds p.1).filter fun bd => decide (j = bd.2.2)).map fun bd =>
            (bd.2.1 p.2 a : ℂ) / (Real.sqrt (mass p.1 * mass bd.2.2) : ℂ)
              * Complex.exp (-Complex.I * (dot3 0 (bas p.1 - bd.1) : ℂ))).sum
            * (Real.sqrt (mass j) : ℂ))
        = ((bonds p.1).map fun bd => (bd.2.1 p.2 a : ℂ)).sum
            * ((Real.sqrt (mass p.1) : ℂ))⁻¹ := by
      have hJ : ∀ j : Fin N,
          (((bonds p.1).filter fun bd => decide (j = bd.2.2)).map fun bd =>
            (bd.2.1 p.2 a : ℂ) / (Real.sqrt (mass p.1 * mass bd.2.2) : ℂ)
              * Complex.exp (-Complex.I * (dot3 0 (bas p.1 - bd.1) : ℂ))).sum
            * (Real.sqrt (mass j) : ℂ)
          = (((bonds p.1).filter fun bd => decide (j = bd.2.2)).map fun bd =>
              (bd.2.1 p.2 a : ℂ) * ((Real.sqrt (mass p.1) : ℂ))⁻¹).sum := by
        intro j
        rw [← list_sum_mul_right]
        congr 1
        apply List.map_congr_left
        intro bd hbd
        have hlab : j = bd.2.2 := of_decide_eq_true (List.mem_filter.mp hbd).2
        rw [← hlab, dot3_zero_left, Real.sqrt_mul (hm p.1).le]
        have he : Complex.exp (-Complex.I * ((0 : ℝ) : ℂ)) = 1 := by
          simp
        rw [he, Complex.ofReal_mul]
        field_simp
        rw [mul_comm ((Real.sqrt (mass p.1) : ℂ)) ((Real.sqrt (mass j) : ℂ)), ← div_div,
          mul_div_cancel_right₀ _ (hsq0 j)]
      simp only [hJ]
      rw [list_sum_partition (bonds p.1) (fun bd => bd.2.2)
        (fun bd => (bd.2.1 p.2 a : ℂ) * ((Real.sqrt (mass p.1) : ℂ))⁻¹)]
      rw [list_sum_mul_right]
    rw [hdiagsum, hoffsum]
    simp
  constructor
  · intro a
    rw [hDB]
    exact hker a
  · rw [hDB]
    have hmem : ∀ a : Fin 3,
        transVec mass a ∈ LinearMap.ker (dynK mthz bas mass bonds 0).mulVecLin := by
      intro a
      rw [LinearMap.mem_ker, Matrix.mulVecLin_apply]
      exact hker a
    have hli : LinearIndependent ℂ (transVec mass) := by
      rw [Fintype.linearIndependent_iff]
      intro g hg b
      have hgb := congrFun hg (⟨0, hN⟩, b)
      simp only [Finset.sum_apply, Pi.smul_apply, transVec, smul_eq_mul, Pi.zero_apply,
        mul_ite, mul_zero] at hgb
      rw [Finset.sum_ite_eq Finset.univ b] at hgb
      simp only [Finset.mem_univ, if_pos] at hgb
      rcases mul_eq_zero.mp hgb with h | h
      · exact h
      · exact absurd h (hsq0 ⟨0, hN⟩)
    have hspan : Submodule.span ℂ (Set.range (transVec mass))
        ≤ LinearMap.ker (dynK mthz bas mass bonds 0).mulVecLin := by
      rw [Submodule.span_le]
      rintro x ⟨a, rfl⟩
      exact hmem a
    have h3 : Module.finrank ℂ
        ↥(Submodule.span ℂ (Set.range (transVec mass))) = 3 := by
      rw [finrank_span_eq_card hli]
      simp
    unfold zeroEigCount
    calc (3 : ℕ)
        = Module.finrank ℂ ↥(Submodule.span ℂ (Set.range (transVec mass))) := h3.symm
      _ ≤ _ := Submodule.finrank_mono hspan

/-- C1 witness: the bond structure w1bonds (a single zero-length
self-bond with the zero tensor) satisfies both hypotheses of C1_amended,
so the matrices DynBuild assembles from it are Hermitian. -/
theorem C1_amended_witness :
    ((DynBuild (fun _ => 0) (fun _ => 1) 1 w1bonds [cx1k] false 1).getD 0 0).IsHermitian :=
  C1_amended (fun _ => 0) (fun _ => 1) 1 w1bonds [cx1k] false 1
    (fun i => by simp [w1bonds])
    (fun i j => by simp [w1bonds, eq_iff_true_of_subsingleton])
    ((DynBuild (fun _ => 0) (fun _ => 1) 1 w1bonds [cx1k] false 1).getD 0 0)
    (by simp [DynBuild])

/-- C4 witness: C4_amended applied to a concrete one-atom model with
unit mass and a non-zero tensor on its single bond. -/
theorem C4_amended_witness :
    (∀ a : Fin 3, ((DynBuild (fun _ => 0) (fun _ => 1) 1 w4bonds [0] true 1).getD 0 0).mulVec
        (transVec (fun _ => 1) a) = 0)
      ∧ 3 ≤ zeroEigCount ((DynBuild (fun _ => 0) (fun _ => 1) 1 w4bonds [0] true 1).getD 0 0) :=
  C4_amended (by norm_num) (fun _ => 0) (fun _ => 1) 1 w4bonds true 1 (fun _ => by norm_num)

/-- C2: for every neighbour shell with stretching coefficients alpha and
bending matrix beta, when the centre is not a bond-charge site (the case
in which the stretching block runs for every neighbour, which is how the
spec describes the generic tensor), the tensor ConstructFC returns for
neighbour n is 8 times the stretching term exactly as the spec words it
(outer product of the bond vector atom - nn[n] with itself scaled by
-alpha_n/d_n^2) plus 2 times the bending term. -/
theorem C2_constructfc_formula {N : ℕ} (alpha : Fin N → ℝ) (beta : Fin N → Fin N → ℝ)
    (nn : Fin N → V3) (atom : V3) (nnlab : Fin N → String) (isBC : Bool)
    (hBC : isBC = false) :
    ConstructFC alpha beta nn atom nnlab isBC
      = some fun n => (8 : ℝ) • specStretch alpha nn atom n
          + (2 : ℝ) • cfcBeta beta nn atom nnlab isBC n := by
  subst hBC
  unfold ConstructFC
  rw [if_neg (by simp)]
  congr 1
  funext n
  congr 2
  unfold cfcAlpha specStretch
  rw [if_pos (by simp [cfcAssigned])]
  ext a b
  simp only [Matrix.smul_apply, Matrix.of_apply, smul_eq_mul]
  rw [pow_two]
  ring

/-- C2 witness: the formula instantiated on a one-neighbour shell with
alpha = 1, beta = 0 at a non-bond-charge centre. -/
theorem C2_witness :
    ConstructFC w2alpha (fun _ _ => 0) w2nn 0 w2lab false
      = some fun n => (8 : ℝ) • specStretch w2alpha w2nn 0 n
          + (2 : ℝ) • cfcBeta (fun _ _ => 0) w2nn 0 w2lab false n :=
  C2_constructfc_formula w2alpha (fun _ _ => 0) w2nn 0 w2lab false rfl

/-- C3 counterexample: at a bond-charge centre (isBC = true) with a
single real-ion neighbour at +x, alpha = 1 and beta = 0, ConstructFC
returns a tensor whose entry (0,0) is -8: the stretching term is NOT
omitted at bond-charge sites (it is only omitted for the bond-charge
site's BC-labelled neighbours), whereas the claim would make this tensor
zero (no bending pair exists here). -/
theorem C3_counterexample :
    ∃ f, ConstructFC w2alpha (fun _ _ => 0) w2nn 0 w2lab true = some f
      ∧ f 0 0 0 = -8 := by
  have hval : ConstructFC w2alpha (fun _ _ => 0) w2nn 0 w2lab true
      = some fun n1 => (8 : ℝ) • cfcAlpha w2alpha w2nn 0 w2lab true n1
          + (2 : ℝ) • cfcBeta (fun _ _ => 0) w2nn 0 w2lab true n1 := by
    unfold ConstructFC
    rw [if_neg (by simp)]
  refine ⟨_, hval, ?_⟩
  have hd : pynorm ((0 : V3) - w2nn 0) = 1 := by
    unfold pynorm
    have h1 : dot3 ((0 : V3) - w2nn 0) ((0 : V3) - w2nn 0) = 1 := by
      simp [dot3, w2nn, Fin.sum_univ_three]
    rw [h1, Real.sqrt_one]
  have hA : cfcAlpha w2alpha w2nn 0 w2lab true 0 0 0 = -1 := by
    unfold cfcAlpha
    rw [if_pos (by simp [cfcAssigned, w2lab])]
    rw [hd]
    simp [w2alpha, w2nn, Matrix.smul_apply, Matrix.of_apply]
  rw [cfcBeta_zero]
  simp [Matrix.add_apply, Matrix.smul_apply, hA]

open Classical in
/-- C3 amended: the actual gating of ConstructFC.  The stretching term
is computed for neighbour n1 unless the centre is a bond charge AND
neighbour n1 is itself labelled BC (first conjunct), and the bending
contribution of the ordered pair (n1,n2) is included exactly when
either (tf1) the centre is a real ion and both neighbours are bond
charges (with no distance test at all), or (tf2/tf3) the centre is a
bond charge, exactly one of n1/n2 is labelled BC, and the one-sided
test d1 - |nn[n1]-nn[n2]| < 1e-4 holds with d1 the possibly stale bond
length of the most recent stretching block (second conjunct); the
returned tensors are 8 times the stretching rows plus 2 times the gated
bending sum (third conjunct). -/
theorem C3_amended {N : ℕ} (alpha : Fin N → ℝ) (beta : Fin N → Fin N → ℝ)
    (nn : Fin N → V3) (atom : V3) (nnlab : Fin N → String) (isBC : Bool)
    (hok : ¬ (1 < N ∧ isBC = true ∧ ∃ n1, (cfcD1 nn atom nnlab isBC n1).isNone = true)) :
    (∀ n1, (cfcAssigned nnlab isBC n1 = true) ↔ (isBC = false ∨ nnlab n1 ≠ "BC"))
      ∧ (∀ n1 n2, cfcGate nn atom nnlab isBC n1 n2
          ↔ ((isBC = false ∧ nnlab n1 = "BC" ∧ nnlab n2 = "BC")
            ∨ (isBC = true ∧ nnlab n1 = "BC" ∧ nnlab n2 ≠ "BC"
                ∧ cfcTF0 nn atom nnlab isBC n1 n2)
            ∨ (isBC = true ∧ nnlab n1 ≠ "BC" ∧ nnlab n2 = "BC"
                ∧ cfcTF0 nn atom nnlab isBC n1 n2)))
      ∧ ConstructFC alpha beta nn atom nnlab isBC
        = some fun n1 =>
          (8 : ℝ) • cfcAlpha alpha nn atom nnlab isBC n1
            + (2 : ℝ) • ∑ n2 : Fin N,
                (if n1 ≠ n2 ∧ cfcGate nn atom nnlab isBC n1 n2 then
                  (beta n1 n2 / (cfcD1 nn atom nnlab isBC n1).getD 0
                      / cfcD2 nn atom isBC n1 n2) • cfcBendM nn atom n1 n2
                else 0) := by
  refine ⟨?_, fun n1 n2 => Iff.rfl, ?_⟩
  · intro n1
    cases isBC <;> simp [cfcAssigned, bne_iff_ne]
  · unfold ConstructFC
    rw [if_neg hok]
    congr 1
    funext n1
    congr 2
    unfold cfcBeta
    rw [show (fun (acc : Mat3) n2 =>
          if n1 ≠ n2 ∧ cfcGate nn atom nnlab isBC n1 n2 then
            acc + (beta n1 n2 / (cfcD1 nn atom nnlab isBC n1).getD 0
                / cfcD2 nn atom isBC n1 n2) • cfcBendM nn atom n1 n2
          else acc)
        = fun acc n2 => acc +
            (if n1 ≠ n2 ∧ cfcGate nn atom nnlab isBC n1 n2 then
              (beta n1 n2 / (cfcD1 nn atom nnlab isBC n1).getD 0
                  / cfcD2 nn atom isBC n1 n2) • cfcBendM nn atom n1 n2
            else 0) from by
      funext acc n2
      by_cases h : n1 ≠ n2 ∧ cfcGate nn atom nnlab isBC n1 n2 <;> simp [h]]
    rw [foldl_add_eq, zero_add, ← Fin.sum_univ_def]

/-- C3 amended witness: the gating characterisation applied at a
bond-charge centre with one real-ion neighbour: its stretching block
runs (the conditions of the first conjunct hold), and the closed form
holds, so the returned option is populated. -/
theorem C3_amended_witness :
    ((cfcAssigned w2lab true 0 = true) ↔ (true = false ∨ w2lab 0 ≠ "BC"))
      ∧ (ConstructFC w2alpha (fun _ _ => 0) w2nn 0 w2lab true).isSome = true := by
  refine ⟨(C3_amended w2alpha (fun _ _ => 0) w2nn 0 w2lab true (by simp)).1 0, ?_⟩
  rw [(C3_amended w2alpha (fun _ _ => 0) w2nn 0 w2lab true (by simp)).2.2]
  rfl

/-- Justification of the rational square-root table: its value at 2 is
the real square root of 2 to within 1e-7, far finer than the 1e-4 shell
tolerance and the gaps between the shell distances it feeds. -/
theorem ratSqrt_two_accurate :
    ((ratSqrt 2 : ℚ) : ℝ) < Real.sqrt 2
      ∧ Real.sqrt 2 < ((ratSqrt 2 : ℚ) : ℝ) + 1 / 10000000 := by
  have h2 : (ratSqrt 2 : ℚ) = 14142135 / 10000000 := by norm_num [ratSqrt]
  rw [h2]
  rw [show ((((14142135 : ℚ) / 10000000 : ℚ) : ℝ)) = 14142135 / 10000000 by push_cast; ring]
  constructor
  · rw [Real.lt_sqrt (by positivity)]
    norm_num
  · rw [show (14142135 : ℝ) / 10000000 + 1 / 10000000 = 14142136 / 10000000 by ring]
    rw [Real.sqrt_lt' (by positivity)]
    norm_num

set_option maxRecDepth 20000 in
set_option maxHeartbeats 3000000 in
/-- C9: For a simple cubic monatomic lattice with lattice constant 1 and
a single atom at the origin, set_nn finds exactly 6 nearest neighbours,
all at distance 1.0 (the rational surrogate square root makes the search
executable; its accuracy is certified separately). -/
theorem C9_cubic_first_shell :
    nn9.length = 1 ∧ (nn9.headI).nn.length = 6 ∧ ∀ d ∈ (nn9.headI).nndist, d = 1 := by
  have hrange3 : List.range 3 = [0, 1, 2] := rfl
  have hrange27 : List.range 27 = [0,1,2,3,4,5,6,7,8,9,10,11,12,13,14,15,16,17,18,19,20,21,22,23,24,25,26] := rfl
  have hhead : nn9.headI = set_nnAtom ratSqrt allA9 0 20 none ((rgridList 1 1 1 1).length) := by
    norm_num [nn9, set_nn, allA9]
  have hlen1 : nn9.length = 1 := by norm_num [nn9, set_nn]
  have hds : allA9.map (fun p => pynormQ ratSqrt ((0 : V3Q) - p)) = dsLit9 := by
    norm_num +decide [allA9, rgridList, mgridList, hrange3, mulVec3, pynormQ, dot3Q, ratSqrt,
      dsLit9, Matrix.one_apply]
  have hsort : argsort dsLit9
      = [13, 4, 10, 12, 14, 16, 22, 1, 3, 5, 7, 9, 11, 15, 17, 19, 21, 23, 25, 0, 2, 6, 8, 18, 20, 24, 26] := by
    norm_num [argsort, argIns, dsLit9, hrange27, List.getD, List.get?]
  refine ⟨hlen1, ?_, ?_⟩
  · rw [hhead]
    simp only [set_nnAtom, hds, hsort]
    norm_num [dsLit9, qabs, List.getD, List.get?, List.getElem?_cons_succ,
      List.getElem?_cons_zero]
  · rw [hhead]
    simp only [set_nnAtom, hds, hsort]
    norm_num [dsLit9, qabs, List.getD, List.get?, List.getElem?_cons_succ,
      List.getElem?_cons_zero]


/-- C7: On a two-atom superlattice whose second atom needs the key B-B,
absent from the dictionary, set_sl_fc does not raise the
missing-interaction error naming that key: the first atom's iteration
already dies in the TypeError of the malformed ConstructFC call of line
341, which masks the lookup failure, so the promised MissingInteraction
diagnostic is unreachable. -/
theorem C7_missing_interaction_masked :
    set_sl_fc sl7symbol sl7nnsymb (fun _ => 1) sl7dict sl7dict
        = Except.error "TypeError: ConstructFC() takes exactly 6 arguments (4 given)"
      ∧ set_sl_fc sl7symbol sl7nnsymb (fun _ => 1) sl7dict sl7dict
        ≠ Except.error "Missing interaction: B-B" := by
  constructor
  · rfl
  · intro hc
    rw [show set_sl_fc sl7symbol sl7nnsymb (fun _ => 1) sl7dict sl7dict
        = Except.error "TypeError: ConstructFC() takes exactly 6 arguments (4 given)"
        from rfl] at hc
    simp at hc

/-- C8: The fitting objective never reaches the frequency comparison: for
every solver, geometry, k-point list and parameter vector, fit_no_ewald
returns the TypeError raised by the 4-argument ConstructFC call inside
set_bulk_fc, so no mean squared deviation is ever computed. -/
theorem C8_objective_unreachable {N : ℕ} (solver : List (DMat N) → List (List ℝ))
    (bas : Fin N → V3) (mass : Fin N → ℝ) (bvec : Mat3)
    (nn : Fin N → List V3) (label : Fin N → List (Fin N))
    (kpts : List V3) (crys : Bool) (mthz : ℝ)
    (srcSorted : List (List ℝ)) (ab0 : ℝ × ℝ) :
    fit_no_ewald solver bas mass bvec nn label kpts crys mthz srcSorted ab0
      = Except.error "TypeError: ConstructFC() takes exactly 6 arguments (4 given)" := rfl

/-- C10: For any non-empty k-point store, k_conv applies the conversion
matrix unconditionally, even when the target system equals the one the
points are already in; concretely, with lattice matrix 2*I the conversion
to crys of a store already in crys doubles the k-point, and doing it
twice doubles it again, so the call is neither a no-op nor idempotent. -/
theorem C10_kconv_unconditional (lvec bvec : Mat3Q) (kpts : List V3Q)
    (h : kpts ≠ []) :
    (k_conv lvec bvec ⟨kpts, true⟩ (some "crys")
        = Except.ok ⟨kpts.map fun k => mulVec3 lvec k, true⟩)
    ∧ (k_conv lvec bvec ⟨kpts, false⟩ (some "cart")
        = Except.ok ⟨kpts.map fun k => mulVec3 bvec k, false⟩)
    ∧ (mulVec3 lvec10 k10 ≠ k10
       ∧ mulVec3 lvec10 (mulVec3 lvec10 k10) ≠ mulVec3 lvec10 k10) := by
  refine ⟨?_, ?_, ?_, ?_⟩
  · simp [k_conv, h]
  · simp [k_conv, h]
  · intro hc
    have h0 := congrFun hc 0
    simp only [mulVec3, lvec10, k10, Matrix.of_apply] at h0
    norm_num +decide at h0
  · intro hc
    have h0 := congrFun hc 0
    simp only [mulVec3, lvec10, k10, Matrix.of_apply] at h0
    norm_num +decide at h0

/-- Witness for C10 at the one-point store containing the zero vector. -/
theorem C10_kconv_unconditional_witness :
    ([(0 : V3Q)] ≠ ([] : List V3Q))
      ∧ (k_conv 1 1 ⟨[0], true⟩ (some "crys")
          = Except.ok ⟨[(0 : V3Q)].map fun k => mulVec3 1 k, true⟩)
      ∧ (mulVec3 lvec10 k10 ≠ k10) :=
  ⟨by simp, (C10_kconv_unconditional 1 1 [0] (by simp)).1,
   (C10_kconv_unconditional 1 1 [0] (by simp)).2.2.1⟩

theorem q6_sameBond_all : ∀ p q : BIdx 1 q6bn, sameBond ratSqrt q6geom p q := by
  rintro ⟨⟨_, _⟩, j⟩ ⟨⟨_, _⟩, k⟩
  fin_cases j <;> fin_cases k <;>
    norm_num +decide [sameBond, pynormQ, dot3Q, cross3, bondVec, q6geom, ratSqrt]

theorem q6_outer :
    ((List.finRange 1).flatMap fun i =>
      (List.finRange (q6bn i)).map fun j => (⟨i, j⟩ : BIdx 1 q6bn))
    = [⟨0, 0⟩, ⟨0, 1⟩] := rfl

theorem q6_lbl : ∀ (x : Fin 1) (y : Fin 2), q6geom.lbl x y = 0 := fun _ _ => rfl

theorem finRange_q6bn : List.finRange (q6bn 0) = [0, 1] := rfl

theorem q6_chain :
    fixInterface ratSqrt q6geom q6F0
      = fixUpd (fixUpd (fixUpd (fixUpd q6F0 ⟨0,0⟩ ⟨0,0⟩) ⟨0,0⟩ ⟨0,1⟩) ⟨0,1⟩ ⟨0,0⟩) ⟨0,1⟩ ⟨0,1⟩ := by
  simp only [fixInterface]
  rw [q6_outer]
  simp only [q6_lbl, finRange_q6bn, List.foldl_cons, List.foldl_nil, q6_sameBond_all, if_true]

theorem q6_entry00 : fixInterface ratSqrt q6geom q6F0 ⟨0, 0⟩ 1 0 = 1/2 := by
  rw [q6_chain]
  norm_num +decide [fixUpd, q6F0, q6B, Matrix.transpose_apply, Matrix.smul_apply,
    Matrix.add_apply, Matrix.of_apply, Matrix.zero_apply, smul_eq_mul]

theorem q6_entry01 : fixInterface ratSqrt q6geom q6F0 ⟨0, 1⟩ 0 1 = 1/4 := by
  rw [q6_chain]
  norm_num +decide [fixUpd, q6F0, q6B, Matrix.transpose_apply, Matrix.smul_apply,
    Matrix.add_apply, Matrix.of_apply, Matrix.zero_apply, smul_eq_mul]

/-- C6: The exact end-of-pass transpose relation promised by the spec
fails on a one-atom cell with two collinear self-owned bonds: the bonds
are parallel in the sense of the code's cross-product test, yet the two
final tensors are not each other's transposes, because every bond also
matches itself and the sequential in-place overwrites interfere. -/
theorem C6_counterexample :
    ¬ ∀ (N : ℕ) (bn : Fin N → ℕ) (sq : ℚ → ℚ) (G : NNGeom N bn)
        (F0 : (r : BIdx N bn) → Mat3Q) (p q : BIdx N bn),
        sameBond sq G p q →
        fixInterface sq G F0 p = (fixInterface sq G F0 q).transpose := by
  intro h
  have h2 := h 1 q6bn ratSqrt q6geom q6F0 ⟨0, 0⟩ ⟨0, 1⟩ (q6_sameBond_all _ _)
  have h3 := congrFun (congrFun h2 1) 0
  rw [q6_entry00, Matrix.transpose_apply, q6_entry01] at h3
  norm_num at h3

theorem foldl_fix {ι α : Type _} (l : List ι) (f : α → ι → α)
    (h : ∀ a k, k ∈ l → f a k = a) (a : α) : l.foldl f a = a := by
  induction l generalizing a with
  | nil => rfl
  | cons b l ih =>
    rw [List.foldl_cons, h a b (List.mem_cons_self b l)]
    exact ih (fun a k hk => h a k (List.mem_cons_of_mem b hk)) a

theorem foldl_ite_single {ι α : Type _} [DecidableEq ι] (l : List ι)
    (h : α → ι → α) (k0 : ι) (hmem : k0 ∈ l) (hnd : l.Nodup) (a : α) :
    l.foldl (fun a k => if k = k0 then h a k else a) a = h a k0 := by
  induction l generalizing a with
  | nil => cases hmem
  | cons b l ih =>
    rw [List.foldl_cons]
    by_cases hb : b = k0
    · subst hb
      rw [if_pos rfl]
      apply foldl_fix
      intro a k hk
      rw [if_neg]
      intro he
      subst he
      exact (List.nodup_cons.mp hnd).1 hk
    · rw [if_neg hb]
      have hmem2 : k0 ∈ l := by
        rcases List.mem_cons.mp hmem with h1 | h1
        · exact absurd h1.symm hb
        · exact h1
      exact ih hmem2 (List.nodup_cons.mp hnd).2 a

theorem fixInterface_inner {N : ℕ} {bn : Fin N → ℕ} (sq : ℚ → ℚ) (G : NNGeom N bn)
    (π : BIdx N bn → BIdx N bn) (k0 : (p : BIdx N bn) → Fin (bn (G.lbl p.1 p.2)))
    (hπk : ∀ p, π p = ⟨G.lbl p.1 p.2, k0 p⟩)
    (hmatch : ∀ p k, sameBond sq G p ⟨G.lbl p.1 p.2, k⟩ ↔ k = k0 p)
    (p : BIdx N bn) (F : (r : BIdx N bn) → Mat3Q) :
    (List.finRange (bn (G.lbl p.1 p.2))).foldl
      (fun F k => if sameBond sq G p ⟨G.lbl p.1 p.2, k⟩ then fixUpd F p ⟨G.lbl p.1 p.2, k⟩ else F) F
    = fixUpd F p (π p) := by
  rw [hπk p]
  have key := foldl_ite_single (List.finRange (bn (G.lbl p.1 p.2)))
    (fun F k => fixUpd F p ⟨G.lbl p.1 p.2, k⟩) (k0 p) (List.mem_finRange _)
    (List.nodup_finRange _) F
  rw [← key]
  congr 1
  funext F k
  by_cases hk : k = k0 p
  · rw [if_pos ((hmatch p k).mpr hk), if_pos hk]
  · rw [if_neg (fun hc => hk ((hmatch p k).mp hc)), if_neg hk]

open Classical in
theorem fixfold_inv {N : ℕ} {bn : Fin N → ℕ}
    (π : BIdx N bn → BIdx N bn) (hinv : Function.Involutive π)
    (F0 : (r : BIdx N bn) → Mat3Q) :
    ∀ (L : List (BIdx N bn)) (F : (r : BIdx N bn) → Mat3Q) (D : BIdx N bn → Prop),
      (∀ r, D r → D (π r)) →
      (∀ r, D r → F r = (1/2 : ℚ) • (F0 r + (F0 (π r)).transpose)) →
      (∀ r, ¬ D r → F r = F0 r) →
      ∀ r, (L.foldl (fun F p => fixUpd F p (π p)) F) r
        = if D r ∨ r ∈ L ∨ π r ∈ L then (1/2 : ℚ) • (F0 r + (F0 (π r)).transpose)
          else F0 r := by
  have hMT : ∀ r, (1/2 : ℚ) • (F0 (π r) + (F0 (π (π r))).transpose)
      = ((1/2 : ℚ) • (F0 r + (F0 (π r)).transpose)).transpose := by
    intro r
    rw [hinv r, Matrix.transpose_smul, Matrix.transpose_add, Matrix.transpose_transpose,
      add_comm]
  intro L
  induction L with
  | nil =>
    intro F D hD1 hFM hFF0 r
    simp only [List.foldl_nil, List.not_mem_nil, or_false, false_or]
    by_cases h : D r
    · rw [if_pos h]; exact hFM r h
    · rw [if_neg h]; exact hFF0 r h
  | cons p L ih =>
    intro F D hD1 hFM hFF0 r
    rw [List.foldl_cons]
    have htmp : (1/2 : ℚ) • (F p + (F (π p)).transpose)
        = (1/2 : ℚ) • (F0 p + (F0 (π p)).transpose) := by
      by_cases hD : D p
      · have hDπ : D (π p) := hD1 p hD
        rw [hFM p hD, hFM (π p) hDπ, hMT p, Matrix.transpose_transpose]
        rw [← two_smul ℚ ((1/2 : ℚ) • (F0 p + (F0 (π p)).transpose)), smul_smul]
        norm_num
      · have hDπ : ¬ D (π p) := by
          intro hc
          have := hD1 (π p) hc
          rw [hinv p] at this
          exact hD this
        rw [hFF0 p hD, hFF0 (π p) hDπ]
    have hF1 : ∀ r, fixUpd F p (π p) r
        = if D r ∨ r = p ∨ r = π p
          then (1/2 : ℚ) • (F0 r + (F0 (π r)).transpose) else F0 r := by
      intro r
      simp only [fixUpd]
      by_cases h1 : r = π p
      · rw [if_pos h1, if_pos (Or.inr (Or.inr h1)), htmp, ← hMT p, h1]
      · rw [if_neg h1]
        by_cases h2 : r = p
        · rw [if_pos h2, if_pos (Or.inr (Or.inl h2)), htmp, h2]
        · rw [if_neg h2]
          by_cases h3 : D r
          · rw [if_pos (Or.inl h3)]; exact hFM r h3
          · rw [if_neg (by tauto)]; exact hFF0 r h3
    have hD'1 : ∀ r, (D r ∨ r = p ∨ r = π p) → (D (π r) ∨ π r = p ∨ π r = π p) := by
      intro r hr
      rcases hr with h | h | h
      · exact Or.inl (hD1 r h)
      · exact Or.inr (Or.inr (by rw [h]))
      · refine Or.inr (Or.inl ?_)
        rw [h, hinv p]
    have step := ih (fixUpd F p (π p)) (fun r => D r ∨ r = p ∨ r = π p) hD'1
      (fun r hr => by rw [hF1 r, if_pos hr])
      (fun r hr => by rw [hF1 r, if_neg hr]) r
    rw [step]
    have hpq : r = π p ↔ π r = p := by
      constructor
      · intro h; rw [h, hinv p]
      · intro h; rw [← h, hinv r]
    have hiff : ((D r ∨ r = p ∨ r = π p) ∨ r ∈ L ∨ π r ∈ L)
        ↔ (D r ∨ r ∈ p :: L ∨ π r ∈ p :: L) := by
      simp only [List.mem_cons]
      tauto
    by_cases hc : (D r ∨ r = p ∨ r = π p) ∨ r ∈ L ∨ π r ∈ L
    · rw [if_pos hc, if_pos (hiff.mp hc)]
    · rw [if_neg hc, if_neg (fun hx => hc (hiff.mpr hx))]

/-- C6: On a genuine interface, where an involutive pairing sends every
stored bond to its reciprocal bond owned by the offsite atom and the
parallel-bond test singles out exactly that partner among the offsite
atom's bonds, __fix_interface replaces each tensor by the mutual average
(T_ij + T_jiᵗ)/2 and the final table satisfies Tensor(i,j) =
Tensor(j,i)ᵗ exactly; without these side conditions the relation can
fail (see the counterexample with collinear self-owned bonds). -/
theorem C6_interface_symmetrization {N : ℕ} {bn : Fin N → ℕ} (sq : ℚ → ℚ)
    (G : NNGeom N bn) (F0 : (r : BIdx N bn) → Mat3Q)
    (π : BIdx N bn → BIdx N bn) (k0 : (p : BIdx N bn) → Fin (bn (G.lbl p.1 p.2)))
    (hinv : Function.Involutive π)
    (hπk : ∀ p, π p = ⟨G.lbl p.1 p.2, k0 p⟩)
    (hmatch : ∀ p k, sameBond sq G p ⟨G.lbl p.1 p.2, k⟩ ↔ k = k0 p) :
    ∀ r, fixInterface sq G F0 r = (1/2 : ℚ) • (F0 r + (F0 (π r)).transpose)
      ∧ fixInterface sq G F0 r = (fixInterface sq G F0 (π r)).transpose := by
  have hrL : ∀ r : BIdx N bn,
      r ∈ (List.finRange N).flatMap fun i =>
        (List.finRange (bn i)).map fun j => (⟨i, j⟩ : BIdx N bn) := by
    intro r
    simp only [List.mem_flatMap, List.mem_map]
    exact ⟨r.1, List.mem_finRange _, r.2, List.mem_finRange _, Sigma.eta r⟩
  have hfix : ∀ r, fixInterface sq G F0 r
      = (1/2 : ℚ) • (F0 r + (F0 (π r)).transpose) := by
    have hfold : fixInterface sq G F0
        = (((List.finRange N).flatMap fun i =>
            (List.finRange (bn i)).map fun j => (⟨i, j⟩ : BIdx N bn)).foldl
            (fun F p => fixUpd F p (π p)) F0) := by
      simp only [fixInterface]
      congr 1
      funext F p
      exact fixInterface_inner sq G π k0 hπk hmatch p F
    intro r
    rw [hfold]
    rw [fixfold_inv π hinv F0 _ F0 (fun _ => False) (fun _ h => h.elim)
      (fun _ h => h.elim) (fun _ _ => rfl) r]
    rw [if_pos (Or.inr (Or.inl (hrL r)))]
  intro r
  refine ⟨hfix r, ?_⟩
  rw [hfix r, hfix (π r), Matrix.transpose_smul, Matrix.transpose_add,
    Matrix.transpose_transpose, hinv r, add_comm]

/-- Witness for C6: a single self-paired bond on a one-atom basis, with
the identity pairing. -/
theorem C6_interface_symmetrization_witness :
    (fixInterface ratSqrt w6geom w6F0 ⟨0, 0⟩
        = (1/2 : ℚ) • (w6F0 ⟨0, 0⟩ + (w6F0 (id (⟨0, 0⟩ : BIdx 1 w6bn))).transpose))
      ∧ (fixInterface ratSqrt w6geom w6F0 ⟨0, 0⟩
        = (fixInterface ratSqrt w6geom w6F0 (id (⟨0, 0⟩ : BIdx 1 w6bn))).transpose) :=
  C6_interface_symmetrization ratSqrt w6geom w6F0 id (fun _ => 0)
    (fun _ => rfl)
    (by decide)
    (by
      rintro ⟨i, j⟩ k
      fin_cases i <;> fin_cases j <;> fin_cases k <;>
        norm_num +decide [sameBond, pynormQ, dot3Q, cross3, bondVec, w6geom, ratSqrt])
    ⟨0, 0⟩
